import Mathlib

/-!
A command-line chat client: shallow embedding of `main.go`.

The program is one `main` function: it resolves a credential, then loops
forever reading an `END`-terminated block of lines, posting the whole
conversation to a chat-completion endpoint and appending the answer.

The embedding keeps the program's own control flow and data
(`request.Messages`, the exit paths of the loop body), models the line scanner
on standard input with its line splitting and its token limit, and takes the
other library calls the program makes (`json.Marshal`, `http.NewRequest`,
`client.Do`, `ioutil.ReadAll`, `json.Unmarshal`, `markdown.Render`,
`os.Getenv`, `os.ReadFile`) as parameters, gathered in `World` and `Env`.
What the main goroutine does to the outside is recorded, in order, in a list
of `Event`s.  Go `error` values are modelled by their text, byte slices by
strings.
-/

namespace Chat

/-! ## Data model (main.go:17-44) -/

/-- Go `type Message struct` (main.go:17). -/
structure Message where
  role : String
  content : String
deriving DecidableEq

/-- Go `type Request struct` (main.go:22); `[]*Message` is a list, as no
message is mutated after it is built. -/
structure Request where
  model : String
  messages : List Message
deriving DecidableEq

/-- Anonymous `Usage` struct of `Response` (main.go:33). -/
structure Usage where
  completion_tokens : Int
  prompt_tokens : Int
  total_tokens : Int
deriving DecidableEq

/-- Go `type Choice struct` (main.go:40); `*Message` may be nil. -/
structure Choice where
  finish_reason : String
  index : Int
  message : Option Message
deriving DecidableEq

/-- Go `type Response struct` (main.go:27); `[]*Choice` holds pointers, each of
which may be nil (a JSON `null` element). -/
structure Response where
  choices : List (Option Choice)
  created : Int
  id : String
  model : String
  object : String
  usage : Usage
deriving DecidableEq

/-! ## Library values the program handles -/

/-- An `*http.Request` as far as the program touches it. -/
structure HttpRequest where
  method : String
  url : String
  header : List (String × String)
  body : String
deriving DecidableEq

/-- Method `Header.Set`: the key is bound to the single given value, replacing
any earlier binding. -/
def Header.Set (h : List (String × String)) (key value : String) : List (String × String) :=
  h.filter (fun kv => kv.1 != key) ++ [(key, value)]

/-- Method `Header.Get`: the value bound to the key, `""` when there is none. -/
def Header.Get (h : List (String × String)) (key : String) : String :=
  match h.find? (fun kv => kv.1 == key) with
  | some kv => kv.2
  | none => ""

/-- An `*http.Response`: its status and what `ioutil.ReadAll(resp.Body)`
yields, the body bytes or a read error. -/
structure HttpResponse where
  status : Nat
  body : Except String String

/-- The library calls of one pass of the loop, as the outside world answers
them. -/
structure World where
  /-- Call `json.Marshal(request)`. -/
  jsonMarshal : Request → Except String String
  /-- Call `http.NewRequest(method, url, body)`. -/
  newRequest : String → String → String → Except String HttpRequest
  /-- Call `client.Do(req)`, the network round trip. -/
  clientDo : HttpRequest → Except String HttpResponse
  /-- Call `json.Unmarshal(respBody, response)` on a fresh `Response`. -/
  jsonUnmarshal : String → Except String Response
  /-- Call `markdown.Render(source, lineWidth, leftPad)`. -/
  render : String → Nat → Nat → String

/-- The process environment and file system read at startup. -/
structure Env where
  /-- Call `os.Getenv`: `""` for an unset variable. -/
  getenv : String → String
  /-- Call `os.ReadFile`. -/
  readFile : String → Except String String

/-- What the main goroutine does to the outside, in program order. -/
inductive Event where
  /-- Text written to standard output by `fmt.Print`, `Println` or `Printf`. -/
  | print (s : String)
  /-- Statement `go spinner(stopSpinner)` (main.go:99). -/
  | spinnerStart
  /-- Statement `stopSpinner <- true` (main.go:155). -/
  | spinnerStop
  /-- Call `os.ReadFile(path)` (main.go:64). -/
  | readFile (path : String)
  /-- Call `json.Marshal(request)` (main.go:110), with the value serialised. -/
  | marshal (r : Request)
  /-- Call `http.NewRequest` (main.go:116). -/
  | newRequest (method url body : String)
  /-- Call `client.Do(req)` (main.go:126): the network call. -/
  | send (req : HttpRequest)
  /-- Call `ioutil.ReadAll(resp.Body)` (main.go:133). -/
  | readAll
  /-- Call `json.Unmarshal(respBody, response)` (main.go:140). -/
  | unmarshal (respBody : String)
deriving DecidableEq

/-! ## Constants of `main` -/

/-- Local `model` (main.go:73). -/
def model : String := "gpt-3.5-turbo-0301"

/-- Local `url` (main.go:74). -/
def url : String := "https://api.openai.com/v1/chat/completions"

/-- The initial `request.Messages` (main.go:77-79). -/
def initialMessages : List Message :=
  [⟨"system", "You are a helpful assistant."⟩]

/-- The text printed when no credential is found (main.go:66), with the
newline `Println` adds. -/
def guidance : String :=
  "Please set either the OPENAI_API_TOKEN environment variable or create the ~/.openai/token file\n"

/-- Output of `fmt.Println(msg, err)`: operands separated by a blank, then a
newline. -/
def println2 (msg err : String) : String :=
  msg ++ " " ++ err ++ "\n"

/-! ## `strings.TrimSpace` -/

/-- Go `unicode.IsSpace`: the Latin-1 spaces and the code points with the
Unicode White_Space property. -/
def isSpace (c : Char) : Bool :=
  let n := c.toNat
  n == 0x09 || n == 0x0A || n == 0x0B || n == 0x0C || n == 0x0D || n == 0x20 ||
  n == 0x85 || n == 0xA0 || n == 0x1680 || (0x2000 ≤ n && n ≤ 0x200A) ||
  n == 0x2028 || n == 0x2029 || n == 0x202F || n == 0x205F || n == 0x3000

/-- Go `strings.TrimSpace`: all leading and trailing white space removed. -/
def TrimSpace (s : String) : String :=
  ⟨List.rdropWhile isSpace (List.dropWhile isSpace s.data)⟩

/-! ## The spinner (main.go:46-59) -/

/-- Local `symbols` of `spinner` (main.go:47). -/
def symbols : List String :=
  ["▁", "▃", "▄", "▅", "▆", "▇", "█", "▇", "▆", "▅", "▄", "▃"]

/-- Function `spinner`, observed for a number of passes of its loop. `stop k`
tells whether a value is waiting on the stop channel at the `k`-th `select`;
`i` is the glyph index. It returns the texts printed and whether the function
has returned. -/
def spinner (stop : Nat → Bool) : Nat → Nat → Nat → List String × Bool
  | 0, _, _ => ([], false)
  | polls + 1, k, i =>
    if stop k then ([], true)
    else
      let r := spinner stop polls (k + 1) ((i + 1) % symbols.length)
      (("\r" ++ symbols.getD i "") :: r.1, r.2)

/-! ## Credential resolution (main.go:62-71) -/

/-- Lines 62-71 of `main`: the token, or `none` when `main` returns at line 67,
with the events of these lines. -/
def resolveToken (env : Env) : Option String × List Event :=
  let token := env.getenv "OPENAI_API_TOKEN"
  if token = "" then
    let path := env.getenv "HOME" ++ "/.openai/token"
    match env.readFile path with
    | .error _ => (none, [.readFile path, .print guidance])
    | .ok tokenFile => (some (TrimSpace tokenFile), [.readFile path])
  else
    (some token, [])

/-! ## The line scanner (main.go:82-83)

`bufio.NewScanner(os.Stdin)` with the split function `bufio.ScanLines` and the
default token limit. Standard input is a text; sizes are counted in the bytes
of its UTF-8 encoding, as the scanner counts them. -/

/-- The newline character, which ends a line. -/
def nl : Char := Char.ofNat 10

/-- The carriage return, dropped from the end of a line. -/
def cr : Char := Char.ofNat 13

/-- Go `bufio.MaxScanTokenSize`: the size to which the scanner's buffer may
grow. -/
def MaxScanTokenSize : Nat := 64 * 1024

/-- Number of bytes of a text in UTF-8. -/
def byteLen (data : List Char) : Nat :=
  (data.map Char.utf8Size).sum

/-- The first `n` bytes of a text. When the cut falls inside a character of
several bytes, the bytes of it that are kept form no character; each is given
as U+FFFD, which is how Go decodes such a byte. -/
def takeBytes : Nat → List Char → List Char
  | _, [] => []
  | n, c :: cs =>
    if c.utf8Size ≤ n then c :: takeBytes (n - c.utf8Size) cs
    else List.replicate n (Char.ofNat 0xFFFD)

/-- Go `dropCR` of `bufio`: one trailing carriage return is removed. -/
def dropCR (data : List Char) : List Char :=
  if data.getLast? = some cr then data.dropLast else data

/-- A `*bufio.Scanner` on standard input. While `err` is false, `data` is the
input not yet consumed (buffered or still to be read). Once the scanner has
failed with `ErrTooLong`, `err` is true and `data` is what its buffer holds:
the scanner reads no further input. -/
structure Scanner where
  data : List Char
  err : Bool
  maxTokenSize : Nat
deriving DecidableEq

/-- Go `bufio.NewScanner(os.Stdin)` followed by `scanner.Split(bufio.ScanLines)`. -/
def NewScanner (stdin : String) : Scanner :=
  ⟨stdin.data, false, MaxScanTokenSize⟩

/-- Method `Scan` with `Text`: the next line, when `Scan` returns true, and the
scanner after the call. With no data left `Scan` returns false. Otherwise the
line runs to the first newline, or to the end of the data when there is none;
it is delivered, without one trailing carriage return, when it fits the buffer
together with its newline, that is when it has fewer than `maxTokenSize`
bytes. A longer line fills the buffer: `Scan` sets `ErrTooLong` and returns
false. After that error the buffer is offered as if at the end of the input,
so the next call delivers its contents and later calls return false. -/
def Scanner.Scan (s : Scanner) : Option String × Scanner :=
  let line := s.data.takeWhile (fun c => c != nl)
  if s.data = [] then (none, s)
  else if s.err || decide (byteLen line < s.maxTokenSize) then
    (some ⟨dropCR line⟩, ⟨(s.data.dropWhile (fun c => c != nl)).drop 1, s.err, s.maxTokenSize⟩)
  else (none, ⟨takeBytes s.maxTokenSize s.data, true, s.maxTokenSize⟩)

/-! ## The input reader (main.go:88-96) -/

/-- The inner loop `for scanner.Scan()` run for at most `fuel` calls of `Scan`:
the second argument is `inputLines` so far. It returns the final `inputLines`
and the scanner after the loop. -/
def readBlockAux : Nat → List String → Scanner → List String × Scanner
  | 0, inputLines, s => (inputLines, s)
  | fuel + 1, inputLines, s =>
    match s.Scan with
    | (none, s1) => (inputLines, s1)
    | (some line, s1) =>
      if line = "END" then (inputLines, s1)
      else readBlockAux fuel (inputLines ++ [line]) s1

/-- The inner loop `for scanner.Scan()`. Every line delivered consumes at least
one character of the scanner's data, so one call more than there are
characters is enough for the loop to end by itself (`readBlock_unfold`). -/
def readBlock (inputLines : List String) (s : Scanner) : List String × Scanner :=
  readBlockAux (s.data.length + 1) inputLines s

/-! ## One pass of the outer loop (main.go:98-156) -/

/-- Lines 122-123: the two `req.Header.Set` calls. -/
def setHeaders (token : String) (req : HttpRequest) : HttpRequest :=
  ⟨req.method, req.url,
    Header.Set (Header.Set req.header "Content-Type" "application/json")
      "Authorization" ("Bearer " ++ token),
    req.body⟩

/-- State after one pass of the loop body: `request.Messages`, the events of
the pass, and whether the pass ended in a run-time panic (which ends the
process). -/
structure TurnResult where
  messages : List Message
  events : List Event
  panicked : Bool
deriving DecidableEq

/-- Lines 98-156 of `main`, for the `inputLines` just read. Each `continue` of
the source is a result returned here. -/
def turn (token : String) (w : World) (messages : List Message)
    (inputLines : List String) : TurnResult :=
  let tr : List Event := [.spinnerStart]
  if inputLines.length = 0 then
    ⟨messages, tr ++ [.print "> "], false⟩
  else
    let question := "\n".intercalate inputLines
    let messages := messages ++ [⟨"user", question⟩]
    let request : Request := ⟨model, messages⟩
    let tr := tr ++ [.marshal request]
    match w.jsonMarshal request with
    | .error err => ⟨messages, tr ++ [.print (println2 "Error marshaling request:" err)], false⟩
    | .ok body =>
    let tr := tr ++ [.newRequest "POST" url body]
    match w.newRequest "POST" url body with
    | .error err => ⟨messages, tr ++ [.print (println2 "Error creating request:" err)], false⟩
    | .ok req =>
    let req := setHeaders token req
    let tr := tr ++ [.send req]
    match w.clientDo req with
    | .error err => ⟨messages, tr ++ [.print (println2 "Error sending request:" err)], false⟩
    | .ok resp =>
    let tr := tr ++ [.readAll]
    match resp.body with
    | .error err => ⟨messages, tr ++ [.print (println2 "Error reading response:" err)], false⟩
    | .ok respBody =>
    let tr := tr ++ [.unmarshal respBody]
    match w.jsonUnmarshal respBody with
    | .error err => ⟨messages, tr ++ [.print (println2 "Error unmarshaling response:" err)], false⟩
    | .ok response =>
    match response.choices with
    | [] => ⟨messages, tr ++ [.spinnerStop, .print "\n> "], false⟩
    | none :: _ => ⟨messages, tr, true⟩
    | some choice :: _ =>
      match choice.message with
      | none => ⟨messages, tr ++ [.spinnerStop, .print "\n> "], false⟩
      | some m =>
        let result := w.render m.content 80 0
        ⟨messages ++ [m], tr ++ [.print ("\r# " ++ result), .spinnerStop, .print "\n> "], false⟩

/-! ## The outer loop and `main` -/

/-- State of the outer loop between two passes. -/
structure LoopState where
  /-- Field `request.Messages`. -/
  messages : List Message
  /-- The line scanner on standard input. -/
  scanner : Scanner
  /-- Events so far. -/
  events : List Event
  /-- Whether the process has died of a panic. -/
  panicked : Bool
deriving DecidableEq

/-- One pass of `for { ... }` (main.go:87-157): read a block, run the body. -/
def pass (token : String) (w : World) (st : LoopState) : LoopState :=
  let block := readBlock [] st.scanner
  let r := turn token w st.messages block.1
  ⟨r.messages, block.2, st.events ++ r.events, r.panicked⟩

/-- The outer loop run for as many passes as there are worlds, the `i`-th world
answering the library calls of the `i`-th pass; a panic ends the process. The
source loop has no exit, so the number of passes is the observer's choice. -/
def loop (token : String) : List World → LoopState → LoopState
  | [], st => st
  | w :: ws, st => if st.panicked then st else loop token ws (pass token w st)

/-- Result of running the program. -/
structure Run where
  /-- Whether `main` returned at line 67, before the loop. -/
  exited : Bool
  /-- The token in use, when the loop was entered. -/
  token : Option String
  /-- The final loop state. -/
  state : LoopState
deriving DecidableEq

/-- The state in which `main` enters its loop (main.go:75-85): the system
message alone, the scanner at the start of standard input, and the first
prompt printed after the startup events `ev`. -/
def initialState (ev : List Event) (stdin : String) : LoopState :=
  ⟨initialMessages, NewScanner stdin, ev ++ [.print "> "], false⟩

/-- Function `main` on the standard input `stdin`, observed for `ws.length`
passes of its loop. -/
def main (env : Env) (ws : List World) (stdin : String) : Run :=
  match resolveToken env with
  | (none, ev) => ⟨true, none, ⟨[], NewScanner stdin, ev, false⟩⟩
  | (some token, ev) => ⟨false, some token, loop token ws (initialState ev stdin)⟩

/-! ## Observations on traces and the vocabulary of the properties -/

/-- The texts printed, in order. -/
def prints : List Event → List String
  | [] => []
  | .print s :: es => s :: prints es
  | _ :: es => prints es

/-- The values handed to `json.Marshal`, in order. -/
def marshalled : List Event → List Request
  | [] => []
  | .marshal r :: es => r :: marshalled es
  | _ :: es => marshalled es

/-- The requests handed to `client.Do`, in order: the network calls. -/
def sent : List Event → List HttpRequest
  | [] => []
  | .send r :: es => r :: sent es
  | _ :: es => sent es

/-- The files read, in order. -/
def filesRead : List Event → List String
  | [] => []
  | .readFile path :: es => path :: filesRead es
  | _ :: es => filesRead es

/-- Number of spinners started. -/
def spinnersStarted (es : List Event) : Nat :=
  es.count .spinnerStart

/-- Number of stop signals sent. -/
def stopsSent (es : List Event) : Nat :=
  es.count .spinnerStop

/-- The user message of a turn: the input lines joined with newlines. -/
def userMessage (inputLines : List String) : Message :=
  ⟨"user", "\n".intercalate inputLines⟩

/-- The five stages of the remote call of a turn. -/
inductive Stage where
  | serialise
  | build
  | send
  | readBody
  | deserialise
deriving DecidableEq

/-- The remote call for `request` fails at the given stage, the earlier stages
having succeeded. -/
def FailsAt (token : String) (w : World) (request : Request) : Stage → Prop
  | .serialise => ∃ err, w.jsonMarshal request = .error err
  | .build => ∃ body err, w.jsonMarshal request = .ok body ∧
      w.newRequest "POST" url body = .error err
  | .send => ∃ body req err, w.jsonMarshal request = .ok body ∧
      w.newRequest "POST" url body = .ok req ∧
      w.clientDo (setHeaders token req) = .error err
  | .readBody => ∃ body req resp err, w.jsonMarshal request = .ok body ∧
      w.newRequest "POST" url body = .ok req ∧
      w.clientDo (setHeaders token req) = .ok resp ∧ resp.body = .error err
  | .deserialise => ∃ body req resp respBody err, w.jsonMarshal request = .ok body ∧
      w.newRequest "POST" url body = .ok req ∧
      w.clientDo (setHeaders token req) = .ok resp ∧ resp.body = .ok respBody ∧
      w.jsonUnmarshal respBody = .error err

/-- The remote call for `request` succeeds at all five stages and yields
`response`. -/
def Parses (token : String) (w : World) (request : Request) (response : Response) : Prop :=
  ∃ body req resp respBody, w.jsonMarshal request = .ok body ∧
    w.newRequest "POST" url body = .ok req ∧
    w.clientDo (setHeaders token req) = .ok resp ∧ resp.body = .ok respBody ∧
    w.jsonUnmarshal respBody = .ok response

/-- One pass is a successful turn in the sense of the five stages: the block
read is non-empty and the remote call succeeds at every stage. -/
def SuccessfulTurn (token : String) (w : World) (st : LoopState) : Prop :=
  (readBlock [] st.scanner).1 ≠ [] ∧
  ∃ response, Parses token w
    ⟨model, st.messages ++ [userMessage (readBlock [] st.scanner).1]⟩ response

/-- One pass is an answered turn: a successful turn whose parsed response has a
first choice carrying a message. -/
def AnsweredTurn (token : String) (w : World) (st : LoopState) : Prop :=
  (readBlock [] st.scanner).1 ≠ [] ∧
  ∃ response choice rest m, Parses token w
    ⟨model, st.messages ++ [userMessage (readBlock [] st.scanner).1]⟩ response ∧
    response.choices = some choice :: rest ∧ choice.message = some m

/-- Every pass of the run is a successful turn. -/
def SuccessfulRun (token : String) : List World → LoopState → Prop
  | [], _ => True
  | w :: ws, st => SuccessfulTurn token w st ∧ SuccessfulRun token ws (pass token w st)

/-- Every pass of the run is an answered turn. -/
def AnsweredRun (token : String) : List World → LoopState → Prop
  | [], _ => True
  | w :: ws, st => AnsweredTurn token w st ∧ AnsweredRun token ws (pass token w st)

/-- The input block as the specification words it: the lines before the first
line equal to `END`, and the lines after that terminator. -/
def blockSpec (lines : List String) : List String × List String :=
  (lines.takeWhile (fun l => l != "END"), (lines.dropWhile (fun l => l != "END")).drop 1)

/-- The lines of a text, read character by character: `cur` is the line being
read. A line ends at a newline, which is not part of it; what follows the last
newline is a line when it is not empty. -/
def rawLinesAux : List Char → List Char → List (List Char)
  | cur, [] => if cur = [] then [] else [cur]
  | cur, c :: cs => if c = nl then cur :: rawLinesAux [] cs else rawLinesAux (cur ++ [c]) cs

/-- The lines of a text as they stand in it, a carriage return before the
newline included. -/
def rawLines (text : List Char) : List (List Char) :=
  rawLinesAux [] text

/-- The lines of a text as a line-oriented reader gives them: each without its
newline and without one carriage return before it. -/
def textLines (text : List Char) : List String :=
  (rawLines text).map (fun l => ⟨dropCR l⟩)

/-- A long line: `MaxScanTokenSize` times the letter `x`. -/
def longLine : List Char :=
  List.replicate MaxScanTokenSize (Char.ofNat 120)

/-- A standard input of four lines: `a`, the long line, `c`, `END`. -/
def overlongInput : List Char :=
  "a".data ++ nl :: (longLine ++ nl :: "c\nEND\n".data)

/-! ## Concrete worlds used to exercise the theorems -/

/-- The mocked response, as `json.Unmarshal` fills it in: one choice, whose
message has role assistant and content `**hi**`. -/
def mockResponse : Response :=
  ⟨[some ⟨"", 0, some ⟨"assistant", "**hi**"⟩⟩], 0, "", "", "", ⟨0, 0, 0⟩⟩

/-- A response with an empty `choices` array. -/
def emptyResponse : Response :=
  ⟨[], 0, "", "", "", ⟨0, 0, 0⟩⟩

/-- A world in which every stage succeeds and the body parses to `r`; the
renderer drops the asterisks of its source. -/
def okWorld (r : Response) : World :=
  ⟨fun _ => .ok "body", fun m u b => .ok ⟨m, u, [], b⟩, fun _ => .ok ⟨200, .ok "raw"⟩,
    fun _ => .ok r, fun s _ _ => ⟨s.data.filter (fun c => c.toNat != 42)⟩⟩

/-- A world in which the network call fails. -/
def downWorld : World :=
  ⟨fun _ => .ok "body", fun m u b => .ok ⟨m, u, [], b⟩, fun _ => .error "connection refused",
    fun _ => .ok emptyResponse, fun s _ _ => s⟩

/-- An environment without `OPENAI_API_TOKEN`, with home `/home/u` and the
given outcome of reading `/home/u/.openai/token`. -/
def fileEnv (file : Except String String) : Env :=
  ⟨fun k => if k = "HOME" then "/home/u" else "",
    fun p => if p = "/home/u/.openai/token" then file else .error "no such file"⟩

/-- An environment with `OPENAI_API_TOKEN` set to `tok` and a token file holding
`file`. -/
def tokenEnv (tok file : String) : Env :=
  ⟨fun k => if k = "HOME" then "/home/u" else if k = "OPENAI_API_TOKEN" then tok else "",
    fun p => if p = "/home/u/.openai/token" then .ok file else .error "no such file"⟩

/-! ## Lemmas on the input reader -/

theorem Scan_nil (e : Bool) (m : Nat) :
    Scanner.Scan ⟨[], e, m⟩ = (none, ⟨[], e, m⟩) := by
  simp [Scanner.Scan]

theorem length_drop_one_dropWhile_lt (p : Char → Bool) (data : List Char) (h : data ≠ []) :
    ((data.dropWhile p).drop 1).length < data.length := by
  have h1 : (data.dropWhile p).length ≤ data.length :=
    (List.dropWhile_suffix p).length_le
  have h2 : 0 < data.length := List.length_pos.mpr h
  simp only [List.length_drop]
  omega

theorem Scan_some_length (s s1 : Scanner) (line : String) (h : s.Scan = (some line, s1)) :
    s1.data.length < s.data.length := by
  unfold Scanner.Scan at h
  by_cases hd : s.data = []
  · simp [hd] at h
  · simp only [hd, if_false] at h
    split_ifs at h
    · simp only [Prod.mk.injEq] at h
      rw [← h.2]
      exact length_drop_one_dropWhile_lt _ _ hd
    · simp at h

theorem readBlockAux_fuel (n m : Nat) (acc : List String) (s : Scanner)
    (hn : s.data.length < n) (hm : s.data.length < m) :
    readBlockAux n acc s = readBlockAux m acc s := by
  induction n generalizing m acc s with
  | zero => omega
  | succ n ih =>
    cases m with
    | zero => omega
    | succ m =>
      simp only [readBlockAux]
      rcases hs : s.Scan with ⟨_ | line, s1⟩
      · rfl
      · simp only
        split_ifs
        · rfl
        · have := Scan_some_length s s1 line hs
          apply ih <;> omega

theorem readBlock_unfold (acc : List String) (s : Scanner) :
    readBlock acc s =
      match s.Scan with
      | (none, s1) => (acc, s1)
      | (some line, s1) =>
        if line = "END" then (acc, s1) else readBlock (acc ++ [line]) s1 := by
  have h : readBlock acc s = readBlockAux (s.data.length + 1) acc s := rfl
  rw [h, readBlockAux]
  rcases hs : s.Scan with ⟨_ | line, s1⟩
  · rfl
  · simp only
    split_ifs
    · rfl
    · have := Scan_some_length s s1 line hs
      show readBlockAux s.data.length _ s1 = readBlockAux (s1.data.length + 1) _ s1
      apply readBlockAux_fuel <;> omega

theorem readBlock_none (acc : List String) (s s1 : Scanner) (h : s.Scan = (none, s1)) :
    readBlock acc s = (acc, s1) := by
  rw [readBlock_unfold, h]

theorem readBlock_END (acc : List String) (s s1 : Scanner) (h : s.Scan = (some "END", s1)) :
    readBlock acc s = (acc, s1) := by
  rw [readBlock_unfold, h]
  simp

theorem readBlock_line (acc : List String) (s s1 : Scanner) (line : String)
    (h : s.Scan = (some line, s1)) (hl : line ≠ "END") :
    readBlock acc s = readBlock (acc ++ [line]) s1 := by
  rw [readBlock_unfold, h]
  simp [hl]

theorem rawLinesAux_line (cur line rest : List Char) (h : nl ∉ line) :
    rawLinesAux cur (line ++ nl :: rest) = (cur ++ line) :: rawLines rest := by
  induction line generalizing cur with
  | nil => simp [rawLinesAux, rawLines]
  | cons c cs ih =>
    have hc : c ≠ nl := fun e => h (by simp [e])
    have hcs : nl ∉ cs := fun e => h (by simp [e])
    simp [rawLinesAux, hc, ih _ hcs]

theorem rawLinesAux_last (cur line : List Char) (h : nl ∉ line) :
    rawLinesAux cur line = if cur ++ line = [] then [] else [cur ++ line] := by
  induction line generalizing cur with
  | nil => simp [rawLinesAux]
  | cons c cs ih =>
    have hc : c ≠ nl := fun e => h (by simp [e])
    have hcs : nl ∉ cs := fun e => h (by simp [e])
    simp [rawLinesAux, hc, ih _ hcs]

theorem nl_not_mem_takeWhile (data : List Char) :
    nl ∉ data.takeWhile (fun c => c != nl) := by
  intro h
  have := List.mem_takeWhile_imp h
  simp at this

theorem rawLines_eq (data : List Char) (h : data ≠ []) :
    rawLines data =
      data.takeWhile (fun c => c != nl) ::
        rawLines ((data.dropWhile (fun c => c != nl)).drop 1) := by
  have hsplit := List.takeWhile_append_dropWhile (fun c => c != nl) data
  have hnl := nl_not_mem_takeWhile data
  rcases hd : data.dropWhile (fun c => c != nl) with _ | ⟨c, tail⟩
  · rw [hd, List.append_nil] at hsplit
    rw [hsplit] at hnl ⊢
    have := rawLinesAux_last [] data hnl
    simp only [List.nil_append, h, if_false] at this
    simp [rawLines, this, rawLinesAux]
  · have hc : c = nl := by
      have := List.head?_dropWhile_not (fun c => c != nl) data
      rw [hd] at this
      simpa using this
    subst hc
    rw [hd] at hsplit
    have := rawLinesAux_line [] _ tail hnl
    rw [hsplit] at this
    simpa [rawLines] using this

theorem Scan_short (data : List Char) (m : Nat) (h : data ≠ [])
    (hlen : byteLen (data.takeWhile (fun c => c != nl)) < m) :
    Scanner.Scan ⟨data, false, m⟩ =
      (some ⟨dropCR (data.takeWhile (fun c => c != nl))⟩,
        ⟨(data.dropWhile (fun c => c != nl)).drop 1, false, m⟩) := by
  simp [Scanner.Scan, h, hlen]

theorem blockSpec_cons (l : String) (ls : List String) :
    blockSpec (l :: ls) =
      if l = "END" then ([], ls) else (l :: (blockSpec ls).1, (blockSpec ls).2) := by
  by_cases h : l = "END"
  · simp [blockSpec, h]
  · simp [blockSpec, h]

theorem readBlock_spec (m : Nat) (data : List Char) (acc : List String)
    (h : ∀ l ∈ rawLines data, byteLen l < m) :
    ∃ rest, readBlock acc ⟨data, false, m⟩ =
        (acc ++ (blockSpec (textLines data)).1, ⟨rest, false, m⟩) ∧
      textLines rest = (blockSpec (textLines data)).2 ∧
      (∀ l ∈ rawLines rest, byteLen l < m) := by
  obtain ⟨n, hn⟩ : ∃ n, data.length = n := ⟨_, rfl⟩
  induction n using Nat.strong_induction_on generalizing data acc with
  | _ n ih =>
    by_cases hd : data = []
    · subst hd
      refine ⟨[], ?_, ?_, ?_⟩
      · rw [readBlock_unfold, Scan_nil]
        simp [textLines, rawLines, rawLinesAux, blockSpec]
      · simp [textLines, rawLines, rawLinesAux, blockSpec]
      · simp [rawLines, rawLinesAux]
    · have hraw := rawLines_eq data hd
      have hshort : byteLen (data.takeWhile (fun c => c != nl)) < m :=
        h _ (by rw [hraw]; simp)
      have hrest : ∀ l ∈ rawLines ((data.dropWhile (fun c => c != nl)).drop 1),
          byteLen l < m := fun l hl => h l (by rw [hraw]; exact List.mem_cons_of_mem _ hl)
      have htext : textLines data =
          ⟨dropCR (data.takeWhile (fun c => c != nl))⟩ ::
            textLines ((data.dropWhile (fun c => c != nl)).drop 1) := by
        simp [textLines, hraw]
      rw [readBlock_unfold, Scan_short data m hd hshort, htext, blockSpec_cons]
      simp only
      by_cases hend : (⟨dropCR (data.takeWhile (fun c => c != nl))⟩ : String) = "END"
      · rw [if_pos hend, if_pos hend]
        exact ⟨_, by simp, rfl, hrest⟩
      · rw [if_neg hend, if_neg hend]
        have hlt := length_drop_one_dropWhile_lt (fun c => c != nl) data hd
        obtain ⟨rest, h1, h2, h3⟩ := ih _ (by omega) _
          (acc ++ [⟨dropCR (data.takeWhile (fun c => c != nl))⟩]) hrest rfl
        exact ⟨rest, by rw [h1]; simp, h2, h3⟩


theorem takeWhile_line (line rest : List Char) (h : nl ∉ line) :
    (line ++ nl :: rest).takeWhile (fun c => c != nl) = line ∧
    (line ++ nl :: rest).dropWhile (fun c => c != nl) = nl :: rest := by
  induction line with
  | nil => simp
  | cons c cs ih =>
    have hc : c ≠ nl := fun e => h (by simp [e])
    have hcs : nl ∉ cs := fun e => h (by simp [e])
    simp [hc, ih hcs]

/-- A line that fits the buffer is delivered and consumed with its newline. -/
theorem Scan_line (line rest : List Char) (m : Nat) (h : nl ∉ line)
    (hlen : byteLen line < m) :
    Scanner.Scan ⟨line ++ nl :: rest, false, m⟩ = (some ⟨dropCR line⟩, ⟨rest, false, m⟩) := by
  have ht := takeWhile_line line rest h
  rw [Scan_short _ m (by simp) (by rw [ht.1]; exact hlen), ht.1, ht.2]
  rfl

/-- A line of `m` bytes or more makes `Scan` fail with the buffer full. -/
theorem Scan_line_tooLong (line rest : List Char) (m : Nat) (h : nl ∉ line)
    (hlen : m ≤ byteLen line) :
    Scanner.Scan ⟨line ++ nl :: rest, false, m⟩ =
      (none, ⟨takeBytes m (line ++ nl :: rest), true, m⟩) := by
  have ht := takeWhile_line line rest h
  have hnot : ¬ byteLen line < m := by omega
  simp [Scanner.Scan, ht.1, hnot]

/-- After the error, the buffer is delivered whatever its size. -/
theorem Scan_err (data : List Char) (m : Nat) (h : data ≠ []) :
    Scanner.Scan ⟨data, true, m⟩ =
      (some ⟨dropCR (data.takeWhile (fun c => c != nl))⟩,
        ⟨(data.dropWhile (fun c => c != nl)).drop 1, true, m⟩) := by
  simp [Scanner.Scan, h]

theorem byteLen_replicate (n : Nat) (c : Char) (hc : c.utf8Size = 1) :
    byteLen (List.replicate n c) = n := by
  induction n with
  | zero => simp [byteLen]
  | succ n ih =>
    simp only [byteLen] at ih
    simp only [byteLen, List.replicate_succ, List.map_cons, List.sum_cons, hc, ih]
    omega

theorem takeBytes_zero (data : List Char) : takeBytes 0 data = [] := by
  cases data with
  | nil => rfl
  | cons c cs =>
    have := Char.utf8Size_pos c
    have hnot : ¬ c.utf8Size ≤ 0 := by omega
    simp [takeBytes, hnot]

theorem takeBytes_replicate (n : Nat) (c : Char) (rest : List Char) (hc : c.utf8Size = 1) :
    takeBytes n (List.replicate n c ++ rest) = List.replicate n c := by
  induction n with
  | zero => simp [takeBytes_zero]
  | succ n ih =>
    have h1 : c.utf8Size ≤ n + 1 := by omega
    rw [List.replicate_succ, List.cons_append, takeBytes, if_pos h1, hc,
      Nat.add_sub_cancel, ih]

theorem dropCR_of_not_mem (data : List Char) (h : cr ∉ data) : dropCR data = data := by
  unfold dropCR
  split_ifs with hl
  · exact absurd (List.mem_of_getLast?_eq_some hl) h
  · rfl

theorem nl_not_mem_longLine : nl ∉ longLine := by
  intro h
  have := List.eq_of_mem_replicate h
  revert this
  decide

theorem cr_not_mem_longLine : cr ∉ longLine := by
  intro h
  have := List.eq_of_mem_replicate h
  revert this
  decide

theorem byteLen_longLine : byteLen longLine = MaxScanTokenSize :=
  byteLen_replicate _ _ (by decide)

theorem longLine_ne_nil : longLine ≠ [] := by
  intro h
  have := congrArg byteLen h
  rw [byteLen_longLine] at this
  revert this
  decide

theorem longLine_ne_END : (⟨longLine⟩ : String) ≠ "END" := by
  intro h
  have h1 : longLine = "END".data := congrArg String.data h
  have h2 : Char.ofNat 69 ∈ longLine := by rw [h1]; decide
  have := List.eq_of_mem_replicate h2
  revert this
  decide

theorem blockSpec_append_END (pre post : List String) (h : "END" ∉ pre) :
    blockSpec (pre ++ "END" :: post) = (pre, post) := by
  induction pre with
  | nil => simp [blockSpec]
  | cons a as ih =>
    have ha : a ≠ "END" := fun e => h (by simp [e])
    have has : "END" ∉ as := fun e => h (by simp [e])
    have := ih has
    simp only [blockSpec, Prod.mk.injEq] at this ⊢
    simp [ha, this.1, this.2]

theorem blockSpec_no_END (lines : List String) (h : "END" ∉ lines) :
    blockSpec lines = (lines, []) := by
  induction lines with
  | nil => simp [blockSpec]
  | cons a as ih =>
    have ha : a ≠ "END" := fun e => h (by simp [e])
    have has : "END" ∉ as := fun e => h (by simp [e])
    have := ih has
    simp only [blockSpec, Prod.mk.injEq] at this ⊢
    simp [ha, this.1, this.2]

/-! ## Lemmas on one pass of the loop -/

theorem prints_append (a b : List Event) : prints (a ++ b) = prints a ++ prints b := by
  induction a with
  | nil => rfl
  | cons e es ih => cases e <;> simp [prints, ih]

theorem length_ne_zero_of_ne_nil {α : Type} {l : List α} (h : l ≠ []) : ¬ (l.length = 0) := by
  simpa using h

theorem turn_nil (token : String) (w : World) (S : List Message) :
    turn token w S [] = ⟨S, [.spinnerStart, .print "> "], false⟩ := by
  rfl

/-- A turn that fails at one of the five stages keeps the user message, does
not panic, and sends no stop signal. -/
theorem turn_fails (token : String) (w : World) (S : List Message) (inputLines : List String)
    (stage : Stage) (hne : inputLines ≠ [])
    (hfail : FailsAt token w ⟨model, S ++ [userMessage inputLines]⟩ stage) :
    (turn token w S inputLines).messages = S ++ [userMessage inputLines] ∧
    (turn token w S inputLines).panicked = false ∧
    spinnersStarted (turn token w S inputLines).events = 1 ∧
    stopsSent (turn token w S inputLines).events = 0 := by
  have hlen : ¬ (inputLines.length = 0) := length_ne_zero_of_ne_nil hne
  cases stage with
  | serialise =>
    obtain ⟨err, h1⟩ := hfail
    simp only [userMessage] at h1
    simp [turn, hlen, h1, userMessage, stopsSent, spinnersStarted]
  | build =>
    obtain ⟨body, err, h1, h2⟩ := hfail
    simp only [userMessage] at h1
    simp [turn, hlen, h1, h2, userMessage, stopsSent, spinnersStarted]
  | send =>
    obtain ⟨body, req, err, h1, h2, h3⟩ := hfail
    simp only [userMessage] at h1
    simp [turn, hlen, h1, h2, h3, userMessage, stopsSent, spinnersStarted]
  | readBody =>
    obtain ⟨body, req, resp, err, h1, h2, h3, h4⟩ := hfail
    simp only [userMessage] at h1
    simp [turn, hlen, h1, h2, h3, h4, userMessage, stopsSent, spinnersStarted]
  | deserialise =>
    obtain ⟨body, req, resp, respBody, err, h1, h2, h3, h4, h5⟩ := hfail
    simp only [userMessage] at h1
    simp [turn, hlen, h1, h2, h3, h4, h5, userMessage, stopsSent, spinnersStarted]

/-- The result of a turn whose remote call parses, by the shape of the parsed
choices. -/
theorem turn_parses (token : String) (w : World) (S : List Message) (inputLines : List String)
    (response : Response) (hne : inputLines ≠ [])
    (hp : Parses token w ⟨model, S ++ [userMessage inputLines]⟩ response) :
    ∃ tr : List Event, prints tr = [] ∧ stopsSent tr = 0 ∧ spinnersStarted tr = 1 ∧
      turn token w S inputLines =
        (match response.choices with
         | [] => ⟨S ++ [userMessage inputLines], tr ++ [.spinnerStop, .print "\n> "], false⟩
         | none :: _ => ⟨S ++ [userMessage inputLines], tr, true⟩
         | some choice :: _ =>
           match choice.message with
           | none => ⟨S ++ [userMessage inputLines], tr ++ [.spinnerStop, .print "\n> "], false⟩
           | some m => ⟨S ++ [userMessage inputLines] ++ [m],
               tr ++ [.print ("\r# " ++ w.render m.content 80 0), .spinnerStop, .print "\n> "],
               false⟩) := by
  have hlen : ¬ (inputLines.length = 0) := length_ne_zero_of_ne_nil hne
  obtain ⟨body, req, resp, respBody, h1, h2, h3, h4, h5⟩ := hp
  simp only [userMessage] at h1
  refine ⟨[.spinnerStart, .marshal ⟨model, S ++ [userMessage inputLines]⟩,
    .newRequest "POST" url body, .send (setHeaders token req), .readAll,
    .unmarshal respBody], by simp [prints], by simp [stopsSent], by simp [spinnersStarted], ?_⟩
  simp only [turn, hlen, h1, h2, h3, h4, h5, userMessage, if_false]
  rcases hc : response.choices with _ | ⟨c, rest⟩
  · simp
  · cases c with
    | none => simp
    | some choice =>
      rcases hm : choice.message with _ | m
      · simp [hm]
      · simp [hm]

/-- The messages after a turn are the messages before it, followed by nothing,
by the user message, or by the user message and one more message. -/
theorem turn_messages (token : String) (w : World) (S : List Message)
    (inputLines : List String) :
    (turn token w S inputLines).messages = S ∨
    (turn token w S inputLines).messages = S ++ [userMessage inputLines] ∨
    ∃ m, (turn token w S inputLines).messages = S ++ [userMessage inputLines, m] := by
  unfold turn
  simp only []
  split_ifs
  · left; rfl
  · right
    repeat' split
    all_goals simp [userMessage]

/-- In a turn with input, `json.Marshal` is called once, on the fixed model and
the messages with the user message appended. -/
theorem turn_marshalled (token : String) (w : World) (S : List Message)
    (l : String) (ls : List String) :
    marshalled (turn token w S (l :: ls)).events =
      [⟨model, S ++ [userMessage (l :: ls)]⟩] := by
  unfold turn
  simp only [List.length_cons, Nat.add_one_ne_zero, if_false]
  repeat' split
  all_goals simp [marshalled, userMessage]

/-! ## Lemmas on the loop -/

theorem turn_messages_extends (token : String) (w : World) (S : List Message)
    (inputLines : List String) :
    S <+: (turn token w S inputLines).messages := by
  rcases turn_messages token w S inputLines with h | h | ⟨m, h⟩
  · rw [h]
  · rw [h]; exact List.prefix_append _ _
  · rw [h]; exact List.prefix_append _ _

theorem pass_messages_extends (token : String) (w : World) (st : LoopState) :
    st.messages <+: (pass token w st).messages :=
  turn_messages_extends token w st.messages (readBlock [] st.scanner).1

theorem loop_messages_extends (token : String) (ws : List World) (st : LoopState) :
    st.messages <+: (loop token ws st).messages := by
  induction ws generalizing st with
  | nil => simp [loop]
  | cons w ws ih =>
    unfold loop
    split_ifs
    · exact List.prefix_refl _
    · exact (pass_messages_extends token w st).trans (ih (pass token w st))

theorem head?_of_extends {α : Type} {S T : List α} {a : α} (h : S <+: T)
    (ha : S.head? = some a) : T.head? = some a := by
  obtain ⟨r, rfl⟩ := h
  cases S with
  | nil => simp at ha
  | cons x xs => simpa using ha

/-- An answered pass appends the user message and the first choice's message,
and does not panic. -/
theorem pass_answered (token : String) (w : World) (st : LoopState)
    (h : AnsweredTurn token w st) :
    (pass token w st).messages.length = st.messages.length + 2 ∧
    (pass token w st).panicked = false := by
  obtain ⟨hne, response, choice, rest, m, hp, hc, hm⟩ := h
  obtain ⟨tr, -, -, -, ht⟩ := turn_parses token w st.messages _ response hne hp
  rw [hc] at ht
  simp only [hm] at ht
  simp [pass, ht]

theorem loop_answered_length (token : String) (ws : List World) (st : LoopState)
    (hp : st.panicked = false) (h : AnsweredRun token ws st) :
    (loop token ws st).messages.length = st.messages.length + 2 * ws.length := by
  induction ws generalizing st with
  | nil => simp [loop]
  | cons w ws ih =>
    obtain ⟨h1, h2⟩ := h
    obtain ⟨hl, hq⟩ := pass_answered token w st h1
    unfold loop
    rw [if_neg (by simp [hp]), ih _ hq h2, hl, List.length_cons]
    ring

/-! ## Lemmas on `strings.TrimSpace` -/

theorem rdropWhile_append_rtakeWhile {α : Type} (p : α → Bool) (l : List α) :
    List.rdropWhile p l ++ List.rtakeWhile p l = l := by
  simp only [List.rdropWhile, List.rtakeWhile, ← List.reverse_append,
    List.takeWhile_append_dropWhile, List.reverse_reverse]

theorem mem_rtakeWhile_imp {α : Type} (p : α → Bool) (l : List α) (x : α)
    (hx : x ∈ List.rtakeWhile p l) : p x = true := by
  simp only [List.rtakeWhile, List.mem_reverse] at hx
  exact List.mem_takeWhile_imp hx

/-- The trimmed text is the contents with a run of white space removed from
each end, and neither begins nor ends with white space. -/
theorem TrimSpace_spec (s : String) :
    (∃ pre post : List Char, s.data = pre ++ (TrimSpace s).data ++ post ∧
      (∀ c ∈ pre, isSpace c = true) ∧ (∀ c ∈ post, isSpace c = true)) ∧
    (∀ c, (TrimSpace s).data.head? = some c → isSpace c = false) ∧
    (∀ c, (TrimSpace s).data.getLast? = some c → isSpace c = false) := by
  refine ⟨⟨s.data.takeWhile isSpace, List.rtakeWhile isSpace (s.data.dropWhile isSpace),
    ?_, fun c hc => List.mem_takeWhile_imp hc, fun c hc => mem_rtakeWhile_imp _ _ c hc⟩, ?_, ?_⟩
  · simp only [TrimSpace, List.append_assoc, rdropWhile_append_rtakeWhile,
      List.takeWhile_append_dropWhile]
  · intro c hc
    simp only [TrimSpace] at hc
    obtain ⟨r, hr⟩ := List.rdropWhile_prefix isSpace (l := s.data.dropWhile isSpace)
    have h0 := List.head?_dropWhile_not isSpace s.data
    rw [← hr] at h0
    cases hd : List.rdropWhile isSpace (List.dropWhile isSpace s.data) with
    | nil => rw [hd] at hc; simp at hc
    | cons x xs =>
      rw [hd] at hc h0
      simp only [List.head?_cons, Option.some.injEq] at hc
      subst hc
      simpa using h0
  · intro c hc
    simp only [TrimSpace] at hc
    by_cases hnil : List.rdropWhile isSpace (List.dropWhile isSpace s.data) = []
    · rw [hnil] at hc; simp at hc
    · have h1 := List.rdropWhile_last_not isSpace (List.dropWhile isSpace s.data) hnil
      rw [List.getLast?_eq_getLast _ hnil] at hc
      simp only [Option.some.injEq] at hc
      rw [hc] at h1
      simpa using h1

/-! ## Lemmas on the spinner -/

/-- A spinner whose channel never receives a value has not returned after any
number of passes of its loop. -/
theorem spinner_never_returns (polls k i : Nat) :
    (spinner (fun _ => false) polls k i).2 = false := by
  induction polls generalizing k i with
  | zero => rfl
  | succ n ih => simp [spinner, ih]

/-! ## Lemmas on headers, joining and `main` -/

theorem Header_Get_Set (h : List (String × String)) (key value : String) :
    Header.Get (Header.Set h key value) key = value := by
  have hnone : (h.filter (fun kv => kv.1 != key)).find? (fun kv => kv.1 == key) = none := by
    rw [List.find?_eq_none]
    intro x hx
    have := (List.mem_filter.mp hx).2
    simpa using this
  simp [Header.Get, Header.Set, List.find?_append, hnone]

/-- Every request the loop body hands to `client.Do` carries the header
`Authorization: Bearer <token>`. -/
theorem setHeaders_authorization (token : String) (req : HttpRequest) :
    Header.Get (setHeaders token req).header "Authorization" = "Bearer " ++ token := by
  simp [setHeaders, Header_Get_Set]

theorem intercalate_go_append (x y s : String) (r : List String) :
    String.intercalate.go (x ++ y) s r = x ++ String.intercalate.go y s r := by
  induction r generalizing y with
  | nil => simp [String.intercalate.go]
  | cons a as ih =>
    simp only [String.intercalate.go]
    rw [String.append_assoc, String.append_assoc, ih, String.append_assoc]

theorem intercalate_cons_cons (s a b : String) (r : List String) :
    s.intercalate (a :: b :: r) = a ++ s ++ s.intercalate (b :: r) := by
  simp only [String.intercalate, String.intercalate.go]
  exact intercalate_go_append (a ++ s) b s r

/-- A turn with input keeps the user message right after the earlier
messages. -/
theorem turn_messages_cons (token : String) (w : World) (S : List Message)
    (l : String) (ls : List String) :
    (turn token w S (l :: ls)).messages = S ++ [userMessage (l :: ls)] ∨
    ∃ m, (turn token w S (l :: ls)).messages = S ++ [userMessage (l :: ls), m] := by
  unfold turn
  simp only [List.length_cons, Nat.add_one_ne_zero, if_false]
  repeat' split
  all_goals simp [userMessage]

/-- With no token in the environment and an unreadable token file, `main`
prints the guidance and returns before its loop: nothing is read from standard
input and nothing is sent. -/
theorem main_unreadable_file_exits (env : Env) (ws : List World) (stdin : String)
    (err : String) (hv : env.getenv "OPENAI_API_TOKEN" = "")
    (hf : env.readFile (env.getenv "HOME" ++ "/.openai/token") = .error err) :
    main env ws stdin =
      ⟨true, none, ⟨[], NewScanner stdin,
        [.readFile (env.getenv "HOME" ++ "/.openai/token"), .print guidance], false⟩⟩ := by
  simp [main, resolveToken, hv, hf]

/-! ## The claims -/

/-- C1: for every conversation state `S` and every non-empty input block, a
turn that fails at any one of the five stages (serialising, building the
request, sending, reading the body, deserialising) ends with the state `S`
followed by one user message holding the joined input: the length is
`len(S) + 1`, every earlier message is unchanged, and the only message added
is that user message. -/
theorem C1_failed_turn_appends_only_user_message (token : String) (w : World)
    (S : List Message) (inputLines : List String) (stage : Stage) (hne : inputLines ≠ [])
    (hfail : FailsAt token w ⟨model, S ++ [⟨"user", "\n".intercalate inputLines⟩]⟩ stage) :
    (turn token w S inputLines).messages = S ++ [⟨"user", "\n".intercalate inputLines⟩] ∧
    (turn token w S inputLines).messages.length = S.length + 1 ∧
    (∀ i, i < S.length → (turn token w S inputLines).messages[i]? = S[i]?) ∧
    (turn token w S inputLines).messages.drop S.length =
      [⟨"user", "\n".intercalate inputLines⟩] := by
  have h := (turn_fails token w S inputLines stage hne hfail).1
  simp only [userMessage] at h
  rw [h]
  refine ⟨rfl, by simp, ?_, by simp⟩
  intro i hi
  exact List.getElem?_append_left hi

theorem C1_failed_turn_witness :
    (["a", "b"] : List String) ≠ [] ∧
    FailsAt "t" downWorld ⟨model, initialMessages ++ [⟨"user", "\n".intercalate ["a", "b"]⟩]⟩
      Stage.send ∧
    (turn "t" downWorld initialMessages ["a", "b"]).messages =
      initialMessages ++ [⟨"user", "\n".intercalate ["a", "b"]⟩] ∧
    (turn "t" downWorld initialMessages ["a", "b"]).messages.length =
      initialMessages.length + 1 ∧
    (∀ i, i < initialMessages.length →
      (turn "t" downWorld initialMessages ["a", "b"]).messages[i]? = initialMessages[i]?) ∧
    (turn "t" downWorld initialMessages ["a", "b"]).messages.drop initialMessages.length =
      [⟨"user", "\n".intercalate ["a", "b"]⟩] :=
  ⟨by decide,
    ⟨"body", ⟨"POST", url, [], "body"⟩, "connection refused", rfl, rfl, rfl⟩,
    C1_failed_turn_appends_only_user_message "t" downWorld initialMessages ["a", "b"]
      Stage.send (by decide)
      ⟨"body", ⟨"POST", url, [], "body"⟩, "connection refused", rfl, rfl, rfl⟩⟩

/-- C2, as stated, fails: a turn with input whose remote call succeeds at all
five stages but whose parsed response has no choices adds one message only,
so after one such turn the length is 2, not `1 + 2 * 1`. -/
theorem C2_counterexample :
    SuccessfulRun "t" [okWorld emptyResponse] (initialState [] "hi\nEND\n") ∧
    (loop "t" [okWorld emptyResponse] (initialState [] "hi\nEND\n")).messages.length = 2 ∧
    (loop "t" [okWorld emptyResponse] (initialState [] "hi\nEND\n")).messages.length ≠
      1 + 2 * [okWorld emptyResponse].length :=
  ⟨⟨⟨by decide, emptyResponse, "body", ⟨"POST", url, [], "body"⟩, ⟨200, .ok "raw"⟩, "raw",
      rfl, rfl, rfl, rfl, rfl⟩, trivial⟩,
    by decide, by decide⟩

/-- C2, amended: starting from the initial state (the single system message),
after any sequence of N turns each of which has non-empty input, succeeds at
every stage of the remote call, and parses to a response whose first choice
carries a message, the conversation state has length exactly `1 + 2N`. -/
theorem C2_answered_turns_length (token : String) (ws : List World) (ev : List Event)
    (stdin : String) (h : AnsweredRun token ws (initialState ev stdin)) :
    (loop token ws (initialState ev stdin)).messages.length = 1 + 2 * ws.length := by
  rw [loop_answered_length token ws (initialState ev stdin) rfl h]
  simp [initialState, initialMessages]

theorem C2_answered_turns_witness :
    AnsweredRun "t" [okWorld mockResponse, okWorld mockResponse]
      (initialState [] "a\nEND\nb\nc\nEND\n") ∧
    (loop "t" [okWorld mockResponse, okWorld mockResponse]
      (initialState [] "a\nEND\nb\nc\nEND\n")).messages.length =
      1 + 2 * [okWorld mockResponse, okWorld mockResponse].length :=
  have h : AnsweredRun "t" [okWorld mockResponse, okWorld mockResponse]
      (initialState [] "a\nEND\nb\nc\nEND\n") :=
    ⟨⟨by decide, mockResponse, ⟨"", 0, some ⟨"assistant", "**hi**"⟩⟩, [],
        ⟨"assistant", "**hi**"⟩,
        ⟨"body", ⟨"POST", url, [], "body"⟩, ⟨200, .ok "raw"⟩, "raw", rfl, rfl, rfl, rfl, rfl⟩,
        rfl, rfl⟩,
      ⟨by decide, mockResponse, ⟨"", 0, some ⟨"assistant", "**hi**"⟩⟩, [],
        ⟨"assistant", "**hi**"⟩,
        ⟨"body", ⟨"POST", url, [], "body"⟩, ⟨200, .ok "raw"⟩, "raw", rfl, rfl, rfl, rfl, rfl⟩,
        rfl, rfl⟩,
      trivial⟩
  ⟨h, C2_answered_turns_length "t" [okWorld mockResponse, okWorld mockResponse] []
    "a\nEND\nb\nc\nEND\n" h⟩

/-- C3 fails on the code: the stop signal is sent on one path only, the one
that reaches line 155. The program run on the single line `END` starts a
spinner and returns to the prompt having sent no stop signal; a turn whose
network call fails does the same; in both, spinners started and stop signals
sent differ when the loop goes back to read the next block. Whatever the
token, the world and the state, an empty-input turn sends no stop signal, and
a spinner that is sent none never returns. -/
theorem C3_spinner_left_running :
    (main (tokenEnv "sk" "") [okWorld mockResponse] "END\n").state.events =
      [.print "> ", .spinnerStart, .print "> "] ∧
    spinnersStarted (main (tokenEnv "sk" "") [okWorld mockResponse] "END\n").state.events = 1 ∧
    stopsSent (main (tokenEnv "sk" "") [okWorld mockResponse] "END\n").state.events = 0 ∧
    spinnersStarted (main (tokenEnv "sk" "") [downWorld] "hi\nEND\n").state.events = 1 ∧
    stopsSent (main (tokenEnv "sk" "") [downWorld] "hi\nEND\n").state.events = 0 ∧
    prints (main (tokenEnv "sk" "") [downWorld] "hi\nEND\n").state.events =
      ["> ", "Error sending request: connection refused\n"] ∧
    (∀ (token : String) (w : World) (S : List Message),
      spinnersStarted (turn token w S []).events = 1 ∧
      stopsSent (turn token w S []).events = 0) ∧
    (∀ polls : Nat, (spinner (fun _ => false) polls 0 0).2 = false) := by
  refine ⟨by decide, by decide, by decide, by decide, by decide, by decide, ?_,
    fun polls => spinner_never_returns polls 0 0⟩
  intro token w S
  rw [turn_nil]
  exact ⟨by simp [spinnersStarted], by simp [stopsSent]⟩

/-- C4: for every conversation state `S`, a pass of the loop whose first line
is the terminator `END` (and likewise one that finds the scanner with nothing
left to deliver) leaves the state equal to `S`, hands nothing to `client.Do`,
and prints the prompt and nothing else; the one other thing it does is start
the spinner. -/
theorem C4_empty_input_changes_nothing (token : String) (w : World) (S : List Message)
    (rest : List Char) (ev : List Event) :
    pass token w ⟨S, NewScanner ⟨"END".data ++ nl :: rest⟩, ev, false⟩ =
      ⟨S, NewScanner ⟨rest⟩, ev ++ [.spinnerStart, .print "> "], false⟩ ∧
    pass token w ⟨S, NewScanner ⟨"END".data ++ cr :: nl :: rest⟩, ev, false⟩ =
      ⟨S, NewScanner ⟨rest⟩, ev ++ [.spinnerStart, .print "> "], false⟩ ∧
    (∀ (e : Bool) (m : Nat), pass token w ⟨S, ⟨[], e, m⟩, ev, false⟩ =
      ⟨S, ⟨[], e, m⟩, ev ++ [.spinnerStart, .print "> "], false⟩) ∧
    (turn token w S []).messages = S ∧
    sent (turn token w S []).events = [] ∧
    marshalled (turn token w S []).events = [] ∧
    prints (turn token w S []).events = ["> "] := by
  refine ⟨?_, ?_, ?_, ?_, ?_, ?_, ?_⟩
  · have h := Scan_line "END".data rest MaxScanTokenSize (by decide) (by decide)
    have hd : (⟨dropCR "END".data⟩ : String) = "END" := by decide
    rw [hd] at h
    have hb : readBlock [] (NewScanner ⟨"END".data ++ nl :: rest⟩) = ([], NewScanner ⟨rest⟩) :=
      readBlock_END [] _ _ h
    simp only [pass, hb, turn_nil]
  · have h := Scan_line ("END".data ++ [cr]) rest MaxScanTokenSize (by decide) (by decide)
    have hd : (⟨dropCR ("END".data ++ [cr])⟩ : String) = "END" := by decide
    rw [hd, List.append_assoc] at h
    have hb : readBlock [] (NewScanner ⟨"END".data ++ cr :: nl :: rest⟩) =
        ([], NewScanner ⟨rest⟩) :=
      readBlock_END [] _ _ h
    simp only [pass, hb, turn_nil]
  · intro e m
    simp only [pass, readBlock_none [] _ _ (Scan_nil e m), turn_nil]
  · rw [turn_nil]
  · rw [turn_nil]; rfl
  · rw [turn_nil]; rfl
  · rw [turn_nil]; rfl

/-- C5: for every state `S`, non-empty input and successfully parsed response
whose first choice carries a message `m`, the state after the turn is
`S ++ [user q, m]`: the last entry is `m` itself, its content as received and
not as rendered; what is printed is a carriage return, then `# ` followed by
the rendering of `m.content` at width 80, then the next prompt; the choices
after the first play no part. -/
theorem C5_first_choice_appended_raw (token : String) (w : World) (S : List Message)
    (l : String) (ls : List String) (response : Response) (choice : Choice)
    (rest : List (Option Choice)) (m : Message)
    (hp : Parses token w ⟨model, S ++ [⟨"user", "\n".intercalate (l :: ls)⟩]⟩ response)
    (hc : response.choices = some choice :: rest) (hm : choice.message = some m) :
    (turn token w S (l :: ls)).messages = S ++ [⟨"user", "\n".intercalate (l :: ls)⟩, m] ∧
    (turn token w S (l :: ls)).messages.getLast? = some m ∧
    prints (turn token w S (l :: ls)).events =
      ["\r# " ++ w.render m.content 80 0, "\n> "] ∧
    prints (turn token w S (l :: ls)).events =
      ["\r" ++ ("# " ++ w.render m.content 80 0), "\n> "] ∧
    (turn token w S (l :: ls)).panicked = false := by
  obtain ⟨tr, hpr, -, -, ht⟩ := turn_parses token w S (l :: ls) response (by simp) hp
  rw [hc] at ht
  simp only [hm] at ht
  rw [ht]
  have hcr : "\r" ++ ("# " ++ w.render m.content 80 0) = "\r# " ++ w.render m.content 80 0 := by
    rw [← String.append_assoc]; rfl
  refine ⟨by simp [userMessage], by simp, ?_, ?_, rfl⟩
  · simp [prints_append, hpr, prints]
  · rw [hcr]; simp [prints_append, hpr, prints]

theorem C5_mocked_response_witness :
    Parses "t" (okWorld mockResponse)
      ⟨model, initialMessages ++ [⟨"user", "\n".intercalate ("hello" :: [])⟩]⟩ mockResponse ∧
    (turn "t" (okWorld mockResponse) initialMessages ("hello" :: [])).messages =
      initialMessages ++ [⟨"user", "\n".intercalate ("hello" :: [])⟩, ⟨"assistant", "**hi**"⟩] ∧
    (turn "t" (okWorld mockResponse) initialMessages ("hello" :: [])).messages.getLast? =
      some ⟨"assistant", "**hi**"⟩ ∧
    prints (turn "t" (okWorld mockResponse) initialMessages ("hello" :: [])).events =
      ["\r# " ++ (okWorld mockResponse).render "**hi**" 80 0, "\n> "] ∧
    prints (turn "t" (okWorld mockResponse) initialMessages ("hello" :: [])).events =
      ["\r" ++ ("# " ++ (okWorld mockResponse).render "**hi**" 80 0), "\n> "] ∧
    (turn "t" (okWorld mockResponse) initialMessages ("hello" :: [])).panicked = false :=
  ⟨⟨"body", ⟨"POST", url, [], "body"⟩, ⟨200, .ok "raw"⟩, "raw", rfl, rfl, rfl, rfl, rfl⟩,
    C5_first_choice_appended_raw "t" (okWorld mockResponse) initialMessages "hello" []
      mockResponse ⟨"", 0, some ⟨"assistant", "**hi**"⟩⟩ [] ⟨"assistant", "**hi**"⟩
      ⟨"body", ⟨"POST", url, [], "body"⟩, ⟨200, .ok "raw"⟩, "raw", rfl, rfl, rfl, rfl, rfl⟩
      rfl rfl⟩

/-- C6: for every state `S` and non-empty input, when the response parses but
its choices are empty, or its first choice has a null message, the turn prints
only the next prompt (no `# ` line, no error text) and the state after it is
exactly `S ++ [user q]`. -/
theorem C6_no_choice_no_answer (token : String) (w : World) (S : List Message)
    (l : String) (ls : List String) (response : Response)
    (hp : Parses token w ⟨model, S ++ [⟨"user", "\n".intercalate (l :: ls)⟩]⟩ response)
    (hc : response.choices = [] ∨
      ∃ choice rest, response.choices = some choice :: rest ∧ choice.message = none) :
    (turn token w S (l :: ls)).messages = S ++ [⟨"user", "\n".intercalate (l :: ls)⟩] ∧
    prints (turn token w S (l :: ls)).events = ["\n> "] ∧
    (turn token w S (l :: ls)).panicked = false := by
  obtain ⟨tr, hpr, -, -, ht⟩ := turn_parses token w S (l :: ls) response (by simp) hp
  rcases hc with hc | ⟨choice, rest, hc, hm⟩
  · rw [hc] at ht
    simp only at ht
    rw [ht]
    exact ⟨by simp [userMessage], by simp [prints_append, hpr, prints], rfl⟩
  · rw [hc] at ht
    simp only [hm] at ht
    rw [ht]
    exact ⟨by simp [userMessage], by simp [prints_append, hpr, prints], rfl⟩

theorem C6_empty_choices_witness :
    Parses "t" (okWorld emptyResponse)
      ⟨model, initialMessages ++ [⟨"user", "\n".intercalate ("hello" :: [])⟩]⟩ emptyResponse ∧
    (emptyResponse.choices = [] ∨
      ∃ choice rest, emptyResponse.choices = some choice :: rest ∧ choice.message = none) ∧
    (turn "t" (okWorld emptyResponse) initialMessages ("hello" :: [])).messages =
      initialMessages ++ [⟨"user", "\n".intercalate ("hello" :: [])⟩] ∧
    prints (turn "t" (okWorld emptyResponse) initialMessages ("hello" :: [])).events =
      ["\n> "] ∧
    (turn "t" (okWorld emptyResponse) initialMessages ("hello" :: [])).panicked = false :=
  ⟨⟨"body", ⟨"POST", url, [], "body"⟩, ⟨200, .ok "raw"⟩, "raw", rfl, rfl, rfl, rfl, rfl⟩,
    Or.inl rfl,
    C6_no_choice_no_answer "t" (okWorld emptyResponse) initialMessages "hello" []
      emptyResponse
      ⟨"body", ⟨"POST", url, [], "body"⟩, ⟨200, .ok "raw"⟩, "raw", rfl, rfl, rfl, rfl, rfl⟩
      (Or.inl rfl)⟩

/-- C7: credential resolution returns the value of `OPENAI_API_TOKEN`
unchanged whenever it is non-empty, without reading any file, whatever the
file system holds; the file `<home>/.openai/token` is read only when the
variable is unset or empty, and when that read succeeds the token is the
contents with the white space at both ends removed. -/
theorem C7_environment_before_file (env : Env) :
    (env.getenv "OPENAI_API_TOKEN" ≠ "" →
      resolveToken env = (some (env.getenv "OPENAI_API_TOKEN"), [])) ∧
    (filesRead (resolveToken env).2 ≠ [] → env.getenv "OPENAI_API_TOKEN" = "") ∧
    (env.getenv "OPENAI_API_TOKEN" = "" → ∀ contents : String,
      env.readFile (env.getenv "HOME" ++ "/.openai/token") = .ok contents →
      resolveToken env =
        (some (TrimSpace contents), [.readFile (env.getenv "HOME" ++ "/.openai/token")]) ∧
      (∃ pre post : List Char, contents.data = pre ++ (TrimSpace contents).data ++ post ∧
        (∀ c ∈ pre, isSpace c = true) ∧ (∀ c ∈ post, isSpace c = true)) ∧
      (∀ c, (TrimSpace contents).data.head? = some c → isSpace c = false) ∧
      (∀ c, (TrimSpace contents).data.getLast? = some c → isSpace c = false)) ∧
    (∀ ws stdin, (main env ws stdin).token = (resolveToken env).1) := by
  refine ⟨?_, ?_, ?_, ?_⟩
  · intro h
    simp [resolveToken, h]
  · intro h
    by_contra hne
    simp [resolveToken, hne, filesRead] at h
  · intro h contents hf
    refine ⟨by simp [resolveToken, h, hf], ?_⟩
    exact TrimSpace_spec contents
  · intro ws stdin
    unfold main
    split <;> simp_all

theorem C7_environment_before_file_witness :
    (tokenEnv "sk-abc" " from-file\n").getenv "OPENAI_API_TOKEN" ≠ "" ∧
    resolveToken (tokenEnv "sk-abc" " from-file\n") =
      (some ((tokenEnv "sk-abc" " from-file\n").getenv "OPENAI_API_TOKEN"), []) ∧
    resolveToken (tokenEnv "sk-abc" " from-file\n") = (some "sk-abc", []) ∧
    (tokenEnv "" " from-file\n").getenv "OPENAI_API_TOKEN" = "" ∧
    resolveToken (tokenEnv "" " from-file\n") =
      (some (TrimSpace " from-file\n"),
        [.readFile ((tokenEnv "" " from-file\n").getenv "HOME" ++ "/.openai/token")]) ∧
    TrimSpace " from-file\n" = "from-file" :=
  ⟨by decide,
    (C7_environment_before_file (tokenEnv "sk-abc" " from-file\n")).1 (by decide),
    by decide,
    by decide,
    ((C7_environment_before_file (tokenEnv "" " from-file\n")).2.2.1 (by decide)
      " from-file\n" rfl).1,
    by decide⟩

/-- C8 fails on the code: with `OPENAI_API_TOKEN` unset and a token file that
is readable but holds only a newline, the resolved token is empty, yet `main`
does not print the guidance and does not return: it enters its loop and, on
the input `hi`, hands `client.Do` a request whose `Authorization` header is
`Bearer ` followed by nothing. -/
theorem C8_blank_token_file_reaches_network :
    resolveToken (fileEnv (.ok "\n")) = (some "", [.readFile "/home/u/.openai/token"]) ∧
    (main (fileEnv (.ok "\n")) [okWorld mockResponse] "hi\nEND\n").exited = false ∧
    (main (fileEnv (.ok "\n")) [okWorld mockResponse] "hi\nEND\n").token = some "" ∧
    prints (main (fileEnv (.ok "\n")) [okWorld mockResponse] "hi\nEND\n").state.events =
      ["> ", "\r# hi", "\n> "] ∧
    (sent (main (fileEnv (.ok "\n")) [okWorld mockResponse] "hi\nEND\n").state.events).map
      (fun q => Header.Get q.header "Authorization") = ["Bearer "] := by
  refine ⟨by decide, by decide, by decide, by decide, by decide⟩

/-- C9, as stated, fails: on the input of four lines `a`, a line of 65536
letters, `c`, `END`, the lines before the terminator are three, but the reader
ends the block after `a`: the long line does not fit the scanner's buffer and
`Scan` returns false. The scanner is left in error, holding the 65536 letters;
the next pass reads them as its block, and every later pass reads nothing, so
the lines `c` and `END` are never read. -/
theorem C9_counterexample :
    textLines overlongInput = ["a", ⟨longLine⟩, "c", "END"] ∧
    (blockSpec (textLines overlongInput)).1 = ["a", ⟨longLine⟩, "c"] ∧
    (readBlock [] (NewScanner ⟨overlongInput⟩)).1 = ["a"] ∧
    (readBlock [] (NewScanner ⟨overlongInput⟩)).1 ≠ (blockSpec (textLines overlongInput)).1 ∧
    (readBlock [] (NewScanner ⟨overlongInput⟩)).2 = ⟨longLine, true, MaxScanTokenSize⟩ ∧
    readBlock [] ⟨longLine, true, MaxScanTokenSize⟩ =
      ([⟨longLine⟩], ⟨[], true, MaxScanTokenSize⟩) ∧
    readBlock [] ⟨[], true, MaxScanTokenSize⟩ = ([], ⟨[], true, MaxScanTokenSize⟩) := by
  have htext : textLines overlongInput = ["a", ⟨longLine⟩, "c", "END"] := by
    have h1 := rawLinesAux_line [] "a".data (longLine ++ nl :: "c\nEND\n".data) (by decide)
    have h2 := rawLinesAux_line [] longLine "c\nEND\n".data nl_not_mem_longLine
    have h3 : rawLinesAux [] "c\nEND\n".data = ["c".data, "END".data] := by decide
    have hraw : rawLines overlongInput = ["a".data, longLine, "c".data, "END".data] := by
      unfold overlongInput
      unfold rawLines at h2 ⊢
      rw [h1, List.nil_append]
      unfold rawLines
      rw [h2, List.nil_append, h3]
    have ha : dropCR "a".data = "a".data := by decide
    have hc : dropCR "c".data = "c".data := by decide
    have he : dropCR "END".data = "END".data := by decide
    simp only [textLines, hraw, List.map_cons, List.map_nil, ha, hc, he,
      dropCR_of_not_mem longLine cr_not_mem_longLine]
  have hspec : (blockSpec (textLines overlongInput)).1 = ["a", ⟨longLine⟩, "c"] := by
    have ha : ("a" : String) ≠ "END" := by decide
    have hc : ("c" : String) ≠ "END" := by decide
    rw [htext]
    simp [blockSpec, ha, hc, longLine_ne_END]
  have hs1 : Scanner.Scan ⟨overlongInput, false, MaxScanTokenSize⟩ =
      (some "a", ⟨longLine ++ nl :: "c\nEND\n".data, false, MaxScanTokenSize⟩) :=
    Scan_line "a".data _ MaxScanTokenSize (by decide) (by decide)
  have hs2 : Scanner.Scan ⟨longLine ++ nl :: "c\nEND\n".data, false, MaxScanTokenSize⟩ =
      (none, ⟨longLine, true, MaxScanTokenSize⟩) := by
    rw [Scan_line_tooLong longLine _ MaxScanTokenSize nl_not_mem_longLine
      (by rw [byteLen_longLine])]
    have ht : takeBytes MaxScanTokenSize (longLine ++ nl :: "c\nEND\n".data) = longLine :=
      takeBytes_replicate MaxScanTokenSize _ _ (by decide)
    rw [ht]
  have hread : readBlock [] (NewScanner ⟨overlongInput⟩) =
      (["a"], ⟨longLine, true, MaxScanTokenSize⟩) := by
    have h1 : readBlock [] (NewScanner ⟨overlongInput⟩) =
        readBlock ([] ++ ["a"]) ⟨longLine ++ nl :: "c\nEND\n".data, false, MaxScanTokenSize⟩ :=
      readBlock_line [] _ _ "a" hs1 (by decide)
    rw [h1, readBlock_none _ _ _ hs2]
    rfl
  have hs3 : Scanner.Scan ⟨longLine, true, MaxScanTokenSize⟩ =
      (some ⟨longLine⟩, ⟨[], true, MaxScanTokenSize⟩) := by
    have htw : longLine.takeWhile (fun c => c != nl) = longLine := by
      rw [List.takeWhile_eq_self_iff]
      intro x hx
      have hne : x ≠ nl := fun e => nl_not_mem_longLine (e ▸ hx)
      simpa using hne
    have hdw : longLine.dropWhile (fun c => c != nl) = [] := by
      rw [List.dropWhile_eq_nil_iff]
      intro x hx
      have hne : x ≠ nl := fun e => nl_not_mem_longLine (e ▸ hx)
      simpa using hne
    rw [Scan_err longLine MaxScanTokenSize longLine_ne_nil, htw, hdw,
      dropCR_of_not_mem longLine cr_not_mem_longLine]
    rfl
  have hlast : readBlock [⟨longLine⟩] ⟨[], true, MaxScanTokenSize⟩ =
      ([⟨longLine⟩], ⟨[], true, MaxScanTokenSize⟩) :=
    readBlock_none _ _ _ (Scan_nil true MaxScanTokenSize)
  refine ⟨htext, hspec, by rw [hread], ?_, by rw [hread], ?_,
    readBlock_none _ _ _ (Scan_nil true MaxScanTokenSize)⟩
  · rw [hread, hspec]
    simp
  · rw [readBlock_line [] _ _ _ hs3 longLine_ne_END]
    exact hlast

/-- C9, amended: for every remaining standard input all of whose lines have
fewer than 65536 bytes, where a line runs to a newline and loses one carriage
return before it, the reader consumes the lines up to and including the first
line equal to `END` (or all of them when there is none): the block is the
lines before the terminator, in order, and the user message of the turn is
those lines joined with one newline between consecutive lines; what is left in
the scanner is the text of the lines after the terminator, which the next pass
reads. Lines such as `END ` (with a blank) or `end` do not end the block. -/
theorem C9_input_block (input : List Char)
    (h : ∀ l ∈ rawLines input, byteLen l < MaxScanTokenSize) :
    (readBlock [] (NewScanner ⟨input⟩)).1 = (blockSpec (textLines input)).1 ∧
    (∃ rest : List Char, (readBlock [] (NewScanner ⟨input⟩)).2 = NewScanner ⟨rest⟩ ∧
      textLines rest = (blockSpec (textLines input)).2 ∧
      (∀ l ∈ rawLines rest, byteLen l < MaxScanTokenSize)) ∧
    (∀ (token : String) (w : World) (S : List Message) (ev : List Event),
      (pass token w ⟨S, NewScanner ⟨input⟩, ev, false⟩).scanner =
        (readBlock [] (NewScanner ⟨input⟩)).2 ∧
      ((blockSpec (textLines input)).1 ≠ [] →
        (pass token w ⟨S, NewScanner ⟨input⟩, ev, false⟩).messages[S.length]? =
          some ⟨"user", "\n".intercalate (blockSpec (textLines input)).1⟩)) ∧
    (∀ pre post : List String, "END" ∉ pre → blockSpec (pre ++ "END" :: post) = (pre, post)) ∧
    (∀ lines : List String, "END" ∉ lines → blockSpec lines = (lines, [])) ∧
    (∀ line rest : List Char, nl ∉ line →
      textLines (line ++ nl :: rest) = ⟨dropCR line⟩ :: textLines rest) ∧
    (∀ line : List Char, nl ∉ line → line ≠ [] → textLines line = [⟨dropCR line⟩]) ∧
    textLines [] = [] ∧
    (∀ a : String, "\n".intercalate [a] = a) ∧
    (∀ (a b : String) (r : List String),
      "\n".intercalate (a :: b :: r) = a ++ "\n" ++ "\n".intercalate (b :: r)) ∧
    readBlock [] (NewScanner "END \nend\nEND\nx\n") = (["END ", "end"], NewScanner "x\n") := by
  obtain ⟨rest, hread, hrest, hshort⟩ := readBlock_spec MaxScanTokenSize input [] h
  have hread1 : readBlock [] (NewScanner ⟨input⟩) =
      ((blockSpec (textLines input)).1, NewScanner ⟨rest⟩) := by
    have := hread
    simp only [List.nil_append] at this
    exact this
  refine ⟨by rw [hread1], ⟨rest, by rw [hread1], hrest, hshort⟩, ?_,
    blockSpec_append_END, blockSpec_no_END, ?_, ?_, by decide, fun a => rfl,
    fun a b r => intercalate_cons_cons "\n" a b r, by decide⟩
  · intro token w S ev
    refine ⟨rfl, ?_⟩
    intro hne
    simp only [pass, hread1]
    obtain ⟨l, ls, hl⟩ := List.exists_cons_of_ne_nil hne
    rw [hl]
    rcases turn_messages_cons token w S l ls with h1 | ⟨m, h1⟩
    · rw [h1, List.getElem?_append_right (le_refl _)]; simp [userMessage]
    · rw [h1, List.getElem?_append_right (le_refl _)]; simp [userMessage]
  · intro line rest1 hnl
    have := rawLinesAux_line [] line rest1 hnl
    simp only [List.nil_append] at this
    simp only [textLines, rawLines, this, List.map_cons]
  · intro line hnl hne
    have := rawLinesAux_last [] line hnl
    simp only [List.nil_append, hne, if_false] at this
    simp only [textLines, rawLines, this, List.map_cons, List.map_nil]

theorem C9_input_block_witness :
    (∀ l ∈ rawLines "one\r\n END\nEND \nend\nEND\nnext\nEND\n".data,
      byteLen l < MaxScanTokenSize) ∧
    (readBlock [] (NewScanner ⟨"one\r\n END\nEND \nend\nEND\nnext\nEND\n".data⟩)).1 =
      (blockSpec (textLines "one\r\n END\nEND \nend\nEND\nnext\nEND\n".data)).1 ∧
    (blockSpec (textLines "one\r\n END\nEND \nend\nEND\nnext\nEND\n".data)).1 =
      ["one", " END", "END ", "end"] ∧
    (blockSpec (textLines "one\r\n END\nEND \nend\nEND\nnext\nEND\n".data)).2 =
      ["next", "END"] :=
  ⟨by decide,
    (C9_input_block "one\r\n END\nEND \nend\nEND\nnext\nEND\n".data (by decide)).1,
    by decide, by decide⟩

/-- C10: across every sequence of passes of any kind the conversation state is
append-only (the state before a pass, and before any run of passes, is an
initial segment of the state after it); whenever the loop is entered, the first
element is the system message `You are a helpful assistant.`; and in a pass
with input the value serialised is the fixed model `gpt-3.5-turbo-0301` with
the whole state, the user message just appended included, in order. -/
theorem C10_append_only_with_preamble (token : String) (ws : List World) (st : LoopState) :
    st.messages <+: (loop token ws st).messages ∧
    (∀ w : World, st.messages <+: (pass token w st).messages) ∧
    (∀ (env : Env) (stdin : String), (main env ws stdin).exited = true ∨
      (main env ws stdin).state.messages.head? =
        some ⟨"system", "You are a helpful assistant."⟩) ∧
    (∀ (w : World) (S : List Message) (l : String) (ls : List String),
      marshalled (turn token w S (l :: ls)).events =
        [⟨"gpt-3.5-turbo-0301", S ++ [⟨"user", "\n".intercalate (l :: ls)⟩]⟩]) := by
  refine ⟨loop_messages_extends token ws st, fun w => pass_messages_extends token w st, ?_, ?_⟩
  · intro env stdin
    unfold main
    split
    · left; rfl
    · right
      rename_i tok ev _
      exact head?_of_extends (loop_messages_extends tok ws (initialState ev stdin)) rfl
  · intro w S l ls
    exact turn_marshalled token w S l ls

end Chat
